import Mathlib

/-!
Shallow embedding of the agent-loop repository's core (memory compactor,
agent graph routing, agent manager registration, and capability-internal
skill execution), with theorems settling the frozen claims about it.

Sources embedded:
- src/core/memory_compactor.py (MemoryCompactor)
- src/core/agent_graph.py (AgentGraphBuilder routing and init signature)
- src/core/agent_manager.py (AgentLoopManager.register_agent, _build_and_compile)
- src/skills/converter.py (execute_skill)
-/

namespace AgentLoop

/-- Message roles, mirroring langchain_core message classes
(SystemMessage / HumanMessage / AIMessage / ToolMessage). -/
inductive Role
  | system
  | human
  | ai
  | tool
deriving DecidableEq

/-- A pending tool call attached to a message: the `{id, name, args}` triple
used by langchain tool calls. -/
structure ToolCall where
  id : String
  name : String
  args : String
deriving DecidableEq

/-- A langchain `BaseMessage` as the compactor sees it: a role, a string
content, and (for AIMessage, the only class carrying the attribute) a list of
tool calls. `hasattr(msg, 'tool_calls')` in the Python source holds exactly
for AIMessage, which is modelled here by testing `role = .ai`. -/
structure Message where
  role : Role
  content : String
  tool_calls : List ToolCall
deriving DecidableEq

/-- `True` exactly for `isinstance(m, SystemMessage)`. -/
def isSystemMsg (m : Message) : Bool := m.role = Role.system

/-- Token estimate of a single message, from `MemoryCompactor.count_tokens`:
`len(content) // 4`, plus `len(tool_calls) * 50` when the message has a
truthy `tool_calls` attribute (AIMessage with a non-empty list). -/
def msgTokens (m : Message) : Nat :=
  m.content.length / 4 +
    (if m.role = Role.ai ∧ m.tool_calls ≠ [] then m.tool_calls.length * 50 else 0)

/-- `MemoryCompactor.count_tokens`: sum of the per-message estimates. -/
def count_tokens (msgs : List Message) : Nat :=
  (msgs.map msgTokens).sum

/-- `CompactionStrategy` enum from src/core/memory_compactor.py. -/
inductive CompactionStrategy
  | sliding_window
  | token_aware
  | summary
  | hybrid
deriving DecidableEq

/-- A `MemoryCompactor` instance after `__init__` has run: `max_tokens` is the
resolved budget (the constructor replaces `None` by `_estimate_context_window`,
so downstream code always sees an int). -/
structure MemoryCompactor where
  strategy : CompactionStrategy
  max_tokens : Nat
  max_messages : Option Nat
  keep_system_message : Bool
  keep_last_n_messages : Nat
deriving DecidableEq

/-- Python slice `l[-n:]` — the last `n` elements, except that `l[-0:]` is
`l[0:]`, i.e. the whole list. -/
def sliceLast (l : List Message) (n : Nat) : List Message :=
  if n = 0 then l else l.drop (l.length - n)

/-- Python slice `l[:-n]` — all but the last `n` elements, except that
`l[:-0]` is `l[:0]`, i.e. the empty list. -/
def sliceDropLast (l : List Message) (n : Nat) : List Message :=
  if n = 0 then [] else l.take (l.length - n)

/-- The `system_messages` partition both trim strategies compute:
`[m for m in messages if isinstance(m, SystemMessage)]`. -/
def systemPart (messages : List Message) : List Message :=
  messages.filter (fun m => isSystemMsg m)

/-- The `other_messages` partition: `[m for m in messages if not isinstance(m,
SystemMessage)]`. -/
def otherPart (messages : List Message) : List Message :=
  messages.filter (fun m => !isSystemMsg m)

/-- The `recent_messages` slice of `_trim_token_aware`:
`other_messages[-keep_last_n_messages:]`. -/
def recentPart (c : MemoryCompactor) (messages : List Message) : List Message :=
  sliceLast (otherPart messages) c.keep_last_n_messages

/-- The `middle_messages` slice of `_trim_token_aware`:
`other_messages[:-keep_last_n_messages]`. -/
def middlePart (c : MemoryCompactor) (messages : List Message) : List Message :=
  sliceDropLast (otherPart messages) c.keep_last_n_messages

/-- The `max_msgs` local of `_trim_sliding_window`:
`self.max_messages or self.keep_last_n_messages` — Python `or` falls through
on falsy values, so both `None` and `0` defer to `keep_last_n_messages`. -/
def slidingKeepCount (c : MemoryCompactor) : Nat :=
  match c.max_messages with
  | some m => if m = 0 then c.keep_last_n_messages else m
  | none => c.keep_last_n_messages

/-- `MemoryCompactor._trim_sliding_window`. -/
def trim_sliding_window (c : MemoryCompactor) (messages : List Message) : List Message :=
  (if c.keep_system_message then systemPart messages else []) ++
    sliceLast (otherPart messages) (slidingKeepCount c)

/-- The `for msg in reversed(middle_messages)` loop of
`MemoryCompactor._trim_token_aware`: `l` is the reversed middle list still to
be visited, `cur` the running `current_tokens` (an int that starts at
`system_tokens` in the caller), and `acc` the block of already re-admitted
messages (each admission is `result.insert(0, msg)`, i.e. a prepend). The
loop `break`s at the first message that does not fit. -/
def admitLoop (available : Int) : List Message → Int → List Message → List Message
  | [], _, acc => acc
  | m :: rest, cur, acc =>
    if cur + (msgTokens m : Int) ≤ available then
      admitLoop available rest (cur + (msgTokens m : Int)) (m :: acc)
    else
      acc

/-- The `system_tokens` local of `_trim_token_aware`: `count_tokens(
system_messages)` when `keep_system_message` else `0`. -/
def tokenSystemTokens (c : MemoryCompactor) (messages : List Message) : Nat :=
  if c.keep_system_message then count_tokens (systemPart messages) else 0

/-- The `available_tokens` local of `_trim_token_aware`:
`max_tokens - system_tokens - recent_tokens` (a Python int, possibly
negative). -/
def tokenAvailable (c : MemoryCompactor) (messages : List Message) : Int :=
  (c.max_tokens : Int) - (tokenSystemTokens c messages : Int) -
    (count_tokens (recentPart c messages) : Int)

/-- `MemoryCompactor._trim_token_aware`. Note two source facts this embedding
preserves: the loop accumulator `current_tokens` starts at `system_tokens`
(not 0), and `result.insert(0, msg)` places every re-admitted middle message
in front of the system messages already in `result`. -/
def trim_token_aware (c : MemoryCompactor) (messages : List Message) : List Message :=
  admitLoop (tokenAvailable c messages) (middlePart c messages).reverse
      (tokenSystemTokens c messages : Int) [] ++
    (if c.keep_system_message then systemPart messages else []) ++ recentPart c messages

/-- `MemoryCompactor._trim_hybrid`: sliding window first, then token-aware if
the windowed result is still over budget. -/
def trim_hybrid (c : MemoryCompactor) (messages : List Message) : List Message :=
  let trimmed := trim_sliding_window c messages
  if c.max_tokens < count_tokens trimmed then trim_token_aware c trimmed else trimmed

/-- What the synchronous `MemoryCompactor.trim_messages` evaluates to. The
summary branch calls the `async def _trim_with_summary` without `await` from a
non-async function, so the branch's value is an un-awaited coroutine object
(closed over the messages argument), not a message list; the other branches
produce lists. -/
inductive TrimResult
  | messages (ms : List Message)
  | coroutine (arg : List Message)
deriving DecidableEq

/-- `MemoryCompactor.trim_messages`: returns the input when it is empty or
when the (supplied or computed) token count is within `max_tokens`; otherwise
dispatches on the strategy. -/
def trim_messages (c : MemoryCompactor) (messages : List Message)
    (current_tokens : Option Nat := none) : TrimResult :=
  if messages = [] then .messages messages
  else
    let ct := current_tokens.getD (count_tokens messages)
    if ct ≤ c.max_tokens then .messages messages
    else
      match c.strategy with
      | .sliding_window => .messages (trim_sliding_window c messages)
      | .token_aware => .messages (trim_token_aware c messages)
      | .summary => .coroutine messages
      | .hybrid => .messages (trim_hybrid c messages)

/-! ## Intent routing (src/core/agent_graph.py) -/

/-- Char-list version of the test "sub starts at the head of l". -/
def charsAt : List Char → List Char → Bool
  | [], _ => true
  | _ :: _, [] => false
  | a :: as, b :: bs => a = b && charsAt as bs

/-- Char-list version of Python's substring containment. -/
def charsSub (sub : List Char) : List Char → Bool
  | [] => sub.isEmpty
  | c :: rest => charsAt sub (c :: rest) || charsSub sub rest

/-- Python's `sub in s` for strings. -/
def pyIn (sub s : String) : Bool := charsSub sub.data s.data

/-- The value of `state.get("intent", "")` as `_should_use_skill` sees it:
either a Python string (possibly empty; a missing key yields `""`, `None` with
the key present is falsy and behaves like the non-string case), or a
non-string object (which fails the `isinstance(intent, str)` check). -/
inductive IntentVal
  | ofString (s : String)
  | nonString
deriving DecidableEq

/-- The two routing targets of the conditional edge after `classify_intent`:
`"skill"` leads to `select_skill`, `"direct"` to `execute_with_tools`. -/
inductive Route
  | skill
  | direct
deriving DecidableEq

/-- The fixed keyword list in `AgentGraphBuilder._should_use_skill`. -/
def skill_intents : List String := ["code_review", "data_analysis", "file_operation"]

/-- `AgentGraphBuilder._should_use_skill`: `"direct"` when the intent is falsy
or not a string, else `"skill"` iff `any(skill in intent for skill in
skill_intents)` — each keyword is tested as a substring of the intent, in
that one direction only. -/
def should_use_skill (intent : IntentVal) : Route :=
  match intent with
  | .nonString => .direct
  | .ofString s =>
    if s = "" then .direct
    else if skill_intents.any (fun k => pyIn k s) then .skill else .direct

/-- The routing predicate as claim C6 words it: the intent and some keyword
label contain one another as a substring in either direction. -/
def shouldUseSkillClaim (s : String) : Bool :=
  skill_intents.any (fun k => pyIn k s || pyIn s k)

/-! ## Agent manager (src/core/agent_manager.py) -/

/-- A compiled LangGraph runnable, opaque to the manager; handles are only
stored and compared. -/
abbrev Handle := Nat

/-- The per-agent configuration dict stored in `agent_configs[agent_id]` by
`register_agent`. -/
structure AgentConfig where
  allowed_skills : Option (List String)
  enable_memory_compaction : Option Bool
  memory_compaction_strategy : Option String
  memory_compaction_max_tokens : Option Nat
  memory_compaction_max_messages : Option Nat
deriving DecidableEq

/-- Association-list model of a Python dict keyed by strings (`d.get(k)` /
`k in d` / `d[k]` lookups). -/
def dictGet {α : Type} : List (String × α) → String → Option α
  | [], _ => none
  | p :: rest, k => if p.1 = k then some p.2 else dictGet rest k

/-- `d[k] = v`: overwrite the entry in place when the key exists, else append
(Python dicts preserve insertion order). -/
def dictSet {α : Type} : List (String × α) → String → α → List (String × α)
  | [], k, v => [(k, v)]
  | p :: rest, k, v => if p.1 = k then (k, v) :: rest else p :: dictSet rest k v

/-- The mutable fields of `AgentLoopManager` that `register_agent` touches:
`self.agents` (compiled runnables) and `self.agent_configs`. -/
structure ManagerState where
  agents : List (String × Handle)
  agent_configs : List (String × AgentConfig)
deriving DecidableEq

/-- The parameter names `AgentGraphBuilder.__init__` declares
(src/core/agent_graph.py line 14): `llm, skill_registry, mcp_tools,
skill_tools`. -/
def agentGraphBuilderInitParams : List String :=
  ["llm", "skill_registry", "mcp_tools", "skill_tools"]

/-- The keyword-argument names `_build_and_compile` passes to
`AgentGraphBuilder` (src/core/agent_manager.py lines 174-181), besides the
four positional arguments. -/
def buildAndCompileKwargs : List String :=
  ["enable_memory_compaction", "memory_compactor"]

/-- Python keyword-call semantics: a call raises `TypeError` unless every
keyword names a declared parameter. -/
def kwargsAccepted (accepted kwargs : List String) : Bool :=
  kwargs.all (fun k => accepted.contains k)

/-- Outcome of `AgentLoopManager._build_and_compile`: a compiled handle, or
the `TypeError` raised by the `AgentGraphBuilder(...)` call when one of its
keyword arguments is not accepted. `fresh` stands for the handle that
`graph.compile` would produce if construction succeeded. -/
inductive BuildOutcome
  | ok (h : Handle)
  | typeError
deriving DecidableEq

/-- `AgentLoopManager._build_and_compile`, reduced to the part the claims
depend on: the `AgentGraphBuilder` keyword-argument check. -/
def build_and_compile (fresh : Handle) : BuildOutcome :=
  if kwargsAccepted agentGraphBuilderInitParams buildAndCompileKwargs then .ok fresh
  else .typeError

/-- What a call to `register_agent` does: return a handle normally, or
propagate the `TypeError` out of `_build_and_compile`. -/
inductive RegisterOutcome
  | returned (h : Handle)
  | raisedTypeError
deriving DecidableEq

/-- `AgentLoopManager.register_agent`: early-return the stored handle when the
id is already in `self.agents`; otherwise store the configuration into
`self.agent_configs` first, then build and compile (which mutates
`self.agents` only on success — an exception leaves the configuration written
but no handle stored). -/
def register_agent (st : ManagerState) (agent_id : String) (cfg : AgentConfig)
    (fresh : Handle) : RegisterOutcome × ManagerState :=
  match dictGet st.agents agent_id with
  | some h => (.returned h, st)
  | none =>
    let st1 : ManagerState := { st with agent_configs := dictSet st.agent_configs agent_id cfg }
    match build_and_compile fresh with
    | .typeError => (.raisedTypeError, st1)
    | .ok h => (.returned h, { st1 with agents := dictSet st1.agents agent_id h })

/-! ## Capability-internal execution (src/skills/converter.py, execute_skill) -/

/-- A prompt as rendered by `ChatPromptTemplate`: role/content pairs. -/
abbrev Prompt := List (String × String)

/-- A model response as `execute_skill` inspects it: `content`, and
`getattr(response, 'tool_calls', None)` modelled as `Option (List ToolCall)`
where `none` stands for an absent attribute, `None`, or any non-list value
(all of which make `not tool_calls or not isinstance(tool_calls, (list,
tuple))` true together with the empty list). -/
structure SkillResponse where
  content : String
  tool_calls : Option (List ToolCall)

/-- A tool available to the skill (an element of `filtered_tools`): a name and
its `ainvoke` behaviour, with `str(result)` already applied. -/
structure SkillTool where
  name : String
  run : String → String

/-- The dict appended to the local `messages` list for each executed tool
call. -/
structure SkillToolMsg where
  role : String
  content : String
  tool_call_id : String
deriving DecidableEq

/-- The environment of one `execute_skill` invocation: the skill content and
user input the prompt is built from, the filtered tool list, and the model.
The model is a function of the call index (successive `chain.ainvoke` calls
may answer differently) and of the prompt it is handed. -/
structure SkillExecEnv where
  skillContent : String
  userInput : String
  tools : List SkillTool
  llm : Nat → Prompt → SkillResponse

/-- The prompt `ChatPromptTemplate.from_messages([("system", skill.content),
("user", user_input)])` renders for `{"user_input": user_input}`. -/
def promptOf (env : SkillExecEnv) : Prompt :=
  [("system", env.skillContent), ("user", env.userInput)]

/-- The inner `for tool_call in tool_calls` loop: look the tool up by name
(`next(..., None)`), and when found run it and record a tool message; calls
naming no known tool are skipped. -/
def runToolCalls (tools : List SkillTool) (tcs : List ToolCall) : List SkillToolMsg :=
  tcs.filterMap (fun tc =>
    (tools.find? (fun t => t.name == tc.name)).map
      (fun t => ⟨"tool", t.run tc.args, tc.id⟩))

/-- The `for _ in range(10)` loop of `execute_skill`: `fuel` is the number of
remaining iterations, `callIdx` counts the `chain.ainvoke` calls made so far,
`messages` is the local tool-result list. Exhausting the loop returns the
generic completion string. -/
def execLoop (env : SkillExecEnv) : Nat → Nat → List SkillToolMsg → String
  | 0, _, _ => "Skill execution completed"
  | fuel + 1, callIdx, messages =>
    let response := env.llm callIdx (promptOf env)
    match response.tool_calls with
    | none => response.content
    | some [] => response.content
    | some (tc :: tcs) =>
      execLoop env fuel (callIdx + 1) (messages ++ runToolCalls env.tools (tc :: tcs))

/-- `execute_skill(user_input)`: run the loop with 10 iterations, starting
from an empty local `messages` list. -/
def execute_skill (env : SkillExecEnv) : String := execLoop env 10 0 []

/-- `execLoop` instrumented to also record, in order, the prompt passed to
each `chain.ainvoke` call. -/
def execLoopTrace (env : SkillExecEnv) : Nat → Nat → List SkillToolMsg → String × List Prompt
  | 0, _, _ => ("Skill execution completed", [])
  | fuel + 1, callIdx, messages =>
    let p := promptOf env
    let response := env.llm callIdx p
    match response.tool_calls with
    | none => (response.content, [p])
    | some [] => (response.content, [p])
    | some (tc :: tcs) =>
      let r := execLoopTrace env fuel (callIdx + 1) (messages ++ runToolCalls env.tools (tc :: tcs))
      (r.1, p :: r.2)

/-! ## Claim-worded reference definitions

These two definitions are written from the words of claims C4 and C5 (not
from the source); they exist only to be compared with the source-derived
`trim_token_aware` and `trim_sliding_window`. -/

/-- The last `n` elements of a list, with no Python slice quirk. -/
def lastN (l : List Message) (n : Nat) : List Message :=
  l.drop (l.length - n)

/-- Sliding-window trimming as claim C5 words it: all system messages (when
configured) plus exactly the last `max(max_messages, keep_last_n_messages)`
non-system messages. -/
def trimSlidingWindowClaim (c : MemoryCompactor) (msgs : List Message) : List Message :=
  (if c.keep_system_message then systemPart msgs else []) ++
    lastN (otherPart msgs) (Nat.max (c.max_messages.getD 0) c.keep_last_n_messages)

/-- Token-aware trimming as claim C4 words it: keep system messages and the
last `keep_last_n_messages` non-system messages, then re-admit middle
messages from most recent to least recent while the accumulated
middle-message tokens (started from 0) stay within `max_tokens` minus the
reserved system and recent tokens, the re-admitted block sitting between the
system and recent blocks in original relative order (spec section 4.2). -/
def trimTokenAwareClaim (c : MemoryCompactor) (msgs : List Message) : List Message :=
  let base := if c.keep_system_message then systemPart msgs else []
  let system_tokens := if c.keep_system_message then count_tokens (systemPart msgs) else 0
  let budget : Int :=
    (c.max_tokens : Int) - (system_tokens : Int) - (count_tokens (recentPart c msgs) : Int)
  base ++ admitLoop budget (middlePart c msgs).reverse 0 [] ++ recentPart c msgs

/-- The stopping predicate claim C4 must be amended to (the accumulator of
`_trim_token_aware` starts at `system_tokens`, so the system tokens are
counted once in the budget and again in the running total): suffix `drop i`
of the middle block fits when `system_tokens + tokens(suffix) ≤ max_tokens -
system_tokens - recent_tokens`. -/
def middleSuffixFits (c : MemoryCompactor) (msgs : List Message) (i : Nat) : Prop :=
  (count_tokens (systemPart msgs) : Int) +
      (count_tokens ((middlePart c msgs).drop i) : Int) ≤
    (c.max_tokens : Int) - (count_tokens (systemPart msgs) : Int) -
      (count_tokens (recentPart c msgs) : Int)

/-! ## Concrete instances used by counterexamples and witnesses -/

/-- Sliding-window compactor with `max_messages = 5` smaller than
`keep_last_n_messages = 10` and a 1-token budget. -/
def c5c : MemoryCompactor := ⟨.sliding_window, 1, some 5, true, 10⟩

/-- One system message and six 1-token user messages. -/
def msgs5 : List Message :=
  [⟨.system, "ssss", []⟩, ⟨.human, "u1aa", []⟩, ⟨.human, "u2aa", []⟩, ⟨.human, "u3aa", []⟩,
   ⟨.human, "u4aa", []⟩, ⟨.human, "u5aa", []⟩, ⟨.human, "u6aa", []⟩]

/-- Token-aware compactor: budget 10, keep the last 1 non-system message. -/
def c4c : MemoryCompactor := ⟨.token_aware, 10, none, true, 1⟩

/-- 4-token system message, then middle messages of 4 and 2 tokens, then a
1-token recent message: 11 tokens total, over the 10-token budget. -/
def msgs4 : List Message :=
  [⟨.system, "ssssssssssssssss", []⟩, ⟨.human, "aaaaaaaaaaaaaaaa", []⟩,
   ⟨.human, "bbbbbbbb", []⟩, ⟨.human, "cccc", []⟩]

/-- Sliding-window compactor with default-style settings and a 1-token
budget. -/
def c3c : MemoryCompactor := ⟨.sliding_window, 1, none, true, 10⟩

/-- A history whose system messages are interleaved with retained non-system
messages. -/
def msgs3 : List Message :=
  [⟨.system, "aaaa", []⟩, ⟨.human, "bbbb", []⟩, ⟨.system, "cccc", []⟩, ⟨.human, "dddd", []⟩]

/-- Summary-strategy compactor with a zero budget. -/
def c7c : MemoryCompactor := ⟨.summary, 0, none, true, 10⟩

/-- A 1-token history, over the zero budget of `c7c`. -/
def msgs7 : List Message := [⟨.human, "aaaa", []⟩]

/-- Any compactor for the below-budget witness; summary strategy shows the
no-op holds regardless of strategy. -/
def c8c : MemoryCompactor := ⟨.summary, 100, none, true, 10⟩

/-- A short history well below the budget of `c8c`. -/
def msgs8 : List Message := [⟨.system, "sys", []⟩, ⟨.human, "hello", []⟩]

/-- Configuration dict of the first registration call in the C10 run. -/
def cfgA : AgentConfig := ⟨some ["code_review"], none, none, none, none⟩

/-- Configuration dict of the second registration call in the C10 run. -/
def cfgB : AgentConfig := ⟨none, some true, none, none, none⟩

/-- An execution environment whose model immediately answers without tool
calls. -/
def envC2 : SkillExecEnv := ⟨"skill text", "user text", [], fun _ _ => ⟨"done", some []⟩⟩

/-- An execution environment whose model answers with a pending tool call at
every iteration. -/
def envC9 : SkillExecEnv :=
  ⟨"skill text", "user text", [], fun _ _ => ⟨"x", some [⟨"1", "t", "a"⟩]⟩⟩

/-! ## Small dictionary and token-count lemmas -/

theorem dictGet_dictSet_self {α : Type} (d : List (String × α)) (k : String) (v : α) :
    dictGet (dictSet d k v) k = some v := by
  induction d with
  | nil => simp [dictGet, dictSet]
  | cons p rest ih =>
    by_cases hp : p.1 = k
    · simp [dictGet, dictSet, hp]
    · simp [dictGet, dictSet, hp, ih]

theorem count_tokens_append (a b : List Message) :
    count_tokens (a ++ b) = count_tokens a + count_tokens b := by
  simp [count_tokens]

theorem count_tokens_reverse (l : List Message) :
    count_tokens l.reverse = count_tokens l := by
  simp [count_tokens, List.map_reverse, List.sum_reverse]

theorem count_tokens_drop_le : ∀ (n : Nat) (l : List Message),
    count_tokens (l.drop n) ≤ count_tokens l
  | 0, _ => Nat.le_refl _
  | _ + 1, [] => Nat.le_refl _
  | n + 1, m :: rest => by
    have h := count_tokens_drop_le n rest
    simp only [count_tokens, List.drop_succ_cons, List.map_cons, List.sum_cons] at h ⊢
    omega

theorem count_tokens_drop_mono {l : List Message} {i j : Nat} (h : i ≤ j) :
    count_tokens (l.drop j) ≤ count_tokens (l.drop i) := by
  have hd : l.drop j = (l.drop i).drop (j - i) := by
    rw [List.drop_drop]
    congr 1
    omega
  rw [hd]
  exact count_tokens_drop_le _ _

/-- Exact shape of the `_trim_token_aware` re-admission loop: it returns (in
front of `acc`) the reversal of some prefix of its input, every admitted step
passed the running-total check, and it stopped either because the input was
exhausted or because the next message failed the check. -/
theorem admitLoop_take (a : Int) (r : List Message) :
    ∀ (cur : Int) (acc : List Message),
      ∃ k, k ≤ r.length ∧
        admitLoop a r cur acc = (r.take k).reverse ++ acc ∧
        (∀ i < k, cur + (count_tokens (r.take (i + 1)) : Int) ≤ a) ∧
        (k = r.length ∨ ¬ cur + (count_tokens (r.take (k + 1)) : Int) ≤ a) := by
  induction r with
  | nil =>
    intro cur acc
    exact ⟨0, Nat.le_refl _, rfl, by omega, Or.inl rfl⟩
  | cons m rest ih =>
    intro cur acc
    by_cases hfit : cur + (msgTokens m : Int) ≤ a
    · obtain ⟨k, hk, heq, hall, hstop⟩ := ih (cur + (msgTokens m : Int)) (m :: acc)
      refine ⟨k + 1, Nat.succ_le_succ hk, ?_, ?_, ?_⟩
      · simp only [admitLoop, if_pos hfit, heq, List.take_succ_cons, List.reverse_cons,
          List.append_assoc, List.singleton_append]
      · intro i hi
        cases i with
        | zero =>
          simpa [count_tokens] using hfit
        | succ i' =>
          have h2 := hall i' (Nat.lt_of_succ_lt_succ hi)
          simp only [count_tokens, List.take_succ_cons, List.map_cons, List.sum_cons] at h2 ⊢
          push_cast at h2 ⊢
          omega
      · rcases hstop with h | h
        · exact Or.inl (by simp [h])
        · refine Or.inr ?_
          simp only [count_tokens, List.take_succ_cons, List.map_cons, List.sum_cons] at h ⊢
          push_cast at h ⊢
          omega
    · refine ⟨0, Nat.zero_le _, ?_, by omega, Or.inr ?_⟩
      · simp only [admitLoop, if_neg hfit, List.take_zero, List.reverse_nil, List.nil_append]
      · simpa [count_tokens] using hfit

/-! ## Slice and filter helper lemmas -/

theorem sliceLast_sublist (l : List Message) (n : Nat) : (sliceLast l n).Sublist l := by
  unfold sliceLast
  by_cases h : n = 0
  · simp [h]
  · simp [h, List.drop_sublist]

theorem sliceDropLast_sublist (l : List Message) (n : Nat) : (sliceDropLast l n).Sublist l := by
  unfold sliceDropLast
  by_cases h : n = 0
  · simp [h, List.nil_sublist]
  · simp [h, List.take_sublist]

theorem sliceDropLast_append_sliceLast (l : List Message) (n : Nat) :
    sliceDropLast l n ++ sliceLast l n = l := by
  unfold sliceDropLast sliceLast
  by_cases h : n = 0
  · simp [h]
  · simp [h, List.take_append_drop]

theorem systemPart_systemPart (msgs : List Message) :
    systemPart (systemPart msgs) = systemPart msgs := by
  unfold systemPart
  rw [List.filter_eq_self]
  intro a ha
  exact (List.mem_filter.mp ha).2

theorem otherPart_systemPart (msgs : List Message) :
    otherPart (systemPart msgs) = [] := by
  unfold otherPart systemPart
  rw [List.filter_eq_nil_iff]
  intro a ha
  have := (List.mem_filter.mp ha).2
  simp [this]

theorem otherPart_of_sublist_other {l msgs : List Message}
    (h : l.Sublist (otherPart msgs)) : otherPart l = l := by
  unfold otherPart at h ⊢
  rw [List.filter_eq_self]
  intro a ha
  exact (List.mem_filter.mp (h.subset ha)).2

theorem systemPart_of_sublist_other {l msgs : List Message}
    (h : l.Sublist (otherPart msgs)) : systemPart l = [] := by
  unfold systemPart
  unfold otherPart at h
  rw [List.filter_eq_nil_iff]
  intro a ha
  have := (List.mem_filter.mp (h.subset ha)).2
  simp at this
  simp [this]

theorem systemPart_append (a b : List Message) :
    systemPart (a ++ b) = systemPart a ++ systemPart b := by
  simp [systemPart, List.filter_append]

theorem otherPart_append (a b : List Message) :
    otherPart (a ++ b) = otherPart a ++ otherPart b := by
  simp [otherPart, List.filter_append]

/-- The re-admission loop, run (as `_trim_token_aware` runs it) over the
reversed middle block: its value is a suffix `middle.drop j` of the middle
block; every longer suffix fails the running-total check; and either the
chosen suffix passes the check or the whole block was admitted. -/
theorem admitLoop_reverse_spec (a cur : Int) (middle : List Message) :
    ∃ j, j ≤ middle.length ∧
      admitLoop a middle.reverse cur [] = middle.drop j ∧
      (∀ i < j, ¬ cur + (count_tokens (middle.drop i) : Int) ≤ a) ∧
      (cur + (count_tokens (middle.drop j) : Int) ≤ a ∨ j = middle.length) := by
  obtain ⟨k, hk, heq, hall, hstop⟩ := admitLoop_take a middle.reverse cur []
  rw [List.length_reverse] at hk
  have htake : ∀ n, (middle.reverse.take n).reverse = middle.drop (middle.length - n) := by
    intro n
    rw [List.take_reverse, List.reverse_reverse]
  have hcount : ∀ n, count_tokens (middle.reverse.take n) =
      count_tokens (middle.drop (middle.length - n)) := by
    intro n
    rw [← htake n, count_tokens_reverse]
  refine ⟨middle.length - k, Nat.sub_le _ _, ?_, ?_, ?_⟩
  · rw [heq, List.append_nil, htake]
  · intro i hi
    by_cases hkl : k = middle.length
    · omega
    · have hstop2 : ¬ cur + (count_tokens (middle.reverse.take (k + 1)) : Int) ≤ a := by
        rcases hstop with h | h
        · rw [List.length_reverse] at h
          exact absurd h hkl
        · exact h
      rw [hcount] at hstop2
      have hmono : count_tokens (middle.drop (middle.length - (k + 1))) ≤
          count_tokens (middle.drop i) := by
        apply count_tokens_drop_mono
        omega
      intro hle
      apply hstop2
      have : (count_tokens (middle.drop (middle.length - (k + 1))) : Int) ≤
          (count_tokens (middle.drop i) : Int) := by exact_mod_cast hmono
      omega
  · by_cases hk0 : k = 0
    · right
      omega
    · left
      have := hall (k - 1) (by omega)
      rw [hcount] at this
      have hidx : k - 1 + 1 = k := by omega
      rw [hidx] at this
      exact this

/-! ## Dispatcher lemmas for trim_messages -/

theorem trim_messages_over (c : MemoryCompactor) (msgs : List Message)
    (hover : c.max_tokens < count_tokens msgs) :
    trim_messages c msgs none =
      match c.strategy with
      | .sliding_window => .messages (trim_sliding_window c msgs)
      | .token_aware => .messages (trim_token_aware c msgs)
      | .summary => .coroutine msgs
      | .hybrid => .messages (trim_hybrid c msgs) := by
  have hne : msgs ≠ [] := by
    intro h
    subst h
    simp [count_tokens] at hover
  have hnle : ¬ count_tokens msgs ≤ c.max_tokens := Nat.not_le.mpr hover
  simp [trim_messages, hne, hnle]

theorem trim_messages_messages_cases (c : MemoryCompactor) (msgs out : List Message)
    (h : trim_messages c msgs none = .messages out) :
    out = msgs ∨
      (c.strategy = .sliding_window ∧ out = trim_sliding_window c msgs) ∨
      (c.strategy = .token_aware ∧ out = trim_token_aware c msgs) ∨
      (c.strategy = .hybrid ∧ out = trim_hybrid c msgs) := by
  by_cases hover : c.max_tokens < count_tokens msgs
  · rw [trim_messages_over c msgs hover] at h
    cases hs : c.strategy <;> rw [hs] at h <;> simp at h
    · exact Or.inr (Or.inl ⟨rfl, h.symm⟩)
    · exact Or.inr (Or.inr (Or.inl ⟨rfl, h.symm⟩))
    · exact Or.inr (Or.inr (Or.inr ⟨rfl, h.symm⟩))
  · left
    by_cases hne : msgs = []
    · subst hne
      simp [trim_messages] at h
      exact h
    · have hle : count_tokens msgs ≤ c.max_tokens := Nat.le_of_not_lt hover
      simp [trim_messages, hne, hle] at h
      exact h.symm

/-! ## Order preservation within role classes -/

theorem systemPart_ite (b : Bool) (msgs : List Message) :
    systemPart (if b then systemPart msgs else []) =
      (if b then systemPart msgs else []) := by
  cases b
  · rfl
  · simpa using systemPart_systemPart msgs

theorem otherPart_ite (b : Bool) (msgs : List Message) :
    otherPart (if b then systemPart msgs else []) = [] := by
  cases b
  · rfl
  · simpa using otherPart_systemPart msgs

theorem ite_base_sublist (b : Bool) (msgs : List Message) :
    (if b then systemPart msgs else []).Sublist (systemPart msgs) := by
  cases b
  · exact List.nil_sublist _
  · simp

theorem trim_sliding_window_parts (c : MemoryCompactor) (msgs : List Message) :
    (systemPart (trim_sliding_window c msgs)).Sublist (systemPart msgs) ∧
    (otherPart (trim_sliding_window c msgs)).Sublist (otherPart msgs) := by
  unfold trim_sliding_window
  have hsub := sliceLast_sublist (otherPart msgs) (slidingKeepCount c)
  constructor
  · rw [systemPart_append, systemPart_of_sublist_other hsub, systemPart_ite,
      List.append_nil]
    exact ite_base_sublist c.keep_system_message msgs
  · rw [otherPart_append, otherPart_of_sublist_other hsub, otherPart_ite,
      List.nil_append]
    exact hsub

theorem trim_token_aware_parts (c : MemoryCompactor) (msgs : List Message) :
    (systemPart (trim_token_aware c msgs)).Sublist (systemPart msgs) ∧
    (otherPart (trim_token_aware c msgs)).Sublist (otherPart msgs) := by
  unfold trim_token_aware
  obtain ⟨j, hj, heq, -, -⟩ := admitLoop_reverse_spec (tokenAvailable c msgs)
    ((tokenSystemTokens c msgs : Nat) : Int) (middlePart c msgs)
  rw [heq]
  have hmid : ((middlePart c msgs).drop j).Sublist (otherPart msgs) :=
    (List.drop_sublist j (middlePart c msgs)).trans (sliceDropLast_sublist _ _)
  have hrec : (recentPart c msgs).Sublist (otherPart msgs) := sliceLast_sublist _ _
  constructor
  · rw [systemPart_append, systemPart_append, systemPart_of_sublist_other hmid,
      systemPart_of_sublist_other hrec, systemPart_ite]
    simp only [List.append_nil, List.nil_append]
    exact ite_base_sublist c.keep_system_message msgs
  · rw [otherPart_append, otherPart_append, otherPart_of_sublist_other hmid,
      otherPart_of_sublist_other hrec, otherPart_ite]
    simp only [List.append_nil, List.nil_append]
    have hcat : ((middlePart c msgs).drop j ++ recentPart c msgs).Sublist
        (middlePart c msgs ++ recentPart c msgs) :=
      List.Sublist.append (List.drop_sublist j _) (List.Sublist.refl _)
    have hfull : middlePart c msgs ++ recentPart c msgs = otherPart msgs :=
      sliceDropLast_append_sliceLast _ _
    simpa [hfull] using hcat

theorem trim_hybrid_parts (c : MemoryCompactor) (msgs : List Message) :
    (systemPart (trim_hybrid c msgs)).Sublist (systemPart msgs) ∧
    (otherPart (trim_hybrid c msgs)).Sublist (otherPart msgs) := by
  unfold trim_hybrid
  by_cases h : c.max_tokens < count_tokens (trim_sliding_window c msgs)
  · obtain ⟨hs1, hs2⟩ := trim_sliding_window_parts c msgs
    obtain ⟨ht1, ht2⟩ := trim_token_aware_parts c (trim_sliding_window c msgs)
    simp only [h, if_true]
    exact ⟨ht1.trans hs1, ht2.trans hs2⟩
  · simp only [h, if_false]
    exact trim_sliding_window_parts c msgs

/-! ## Claim theorems: memory compaction -/

/-- C8: for every non-empty history whose estimated token count is at most
`max_tokens`, `trim_messages` returns the history itself unchanged, whatever
the configured strategy (object-level identity in Python; value identity in
this embedding). -/
theorem C8_trim_noop_below_budget (c : MemoryCompactor) (msgs : List Message)
    (hne : msgs ≠ []) (hle : count_tokens msgs ≤ c.max_tokens) :
    trim_messages c msgs none = .messages msgs := by
  simp [trim_messages, hne, hle]

/-- C8 witness: a concrete below-budget history is returned unchanged. -/
theorem C8_trim_noop_below_budget_witness :
    trim_messages c8c msgs8 none = .messages msgs8 :=
  C8_trim_noop_below_budget c8c msgs8 (by decide) (by decide)

/-- C7: with the summary strategy and an over-budget history, the synchronous
`trim_messages` returns the un-awaited coroutine object produced by calling
the async `_trim_with_summary` without `await` — not a list of messages. -/
theorem C7_summary_returns_coroutine (c : MemoryCompactor) (msgs : List Message)
    (hstrat : c.strategy = CompactionStrategy.summary)
    (hover : c.max_tokens < count_tokens msgs) :
    trim_messages c msgs none = .coroutine msgs ∧
    ∀ out, trim_messages c msgs none ≠ .messages out := by
  have hred : trim_messages c msgs none = .coroutine msgs := by
    rw [trim_messages_over c msgs hover, hstrat]
  refine ⟨hred, fun out h => ?_⟩
  rw [hred] at h
  exact TrimResult.noConfusion h

/-- C7 witness: a concrete over-budget history under the summary strategy
yields the coroutine value. -/
theorem C7_summary_returns_coroutine_witness :
    trim_messages c7c msgs7 none = .coroutine msgs7 :=
  (C7_summary_returns_coroutine c7c msgs7 rfl (by decide)).1

/-- C3 counterexample: with system messages interleaved into the history, the
sliding-window output of `trim_messages` on an over-budget history is not a
subsequence of the input (both retained system messages are moved in front of
a retained earlier non-system message), refuting the claim that retained
messages always keep their relative input order. -/
theorem C3_reorder_counterexample :
    c3c.max_tokens < count_tokens msgs3 ∧
    trim_messages c3c msgs3 none = .messages (trim_sliding_window c3c msgs3) ∧
    ¬ (trim_sliding_window c3c msgs3).Sublist msgs3 := by decide

/-- C3 (amended): for every list-returning run of `trim_messages` (the
summary strategy never returns a list), the retained system messages are a
subsequence of the input's system messages and the retained non-system
messages are a subsequence of the input's non-system messages; order is only
reordered across the two classes, never within one. -/
theorem C3_classwise_order_preserved (c : MemoryCompactor) (msgs out : List Message)
    (h : trim_messages c msgs none = .messages out) :
    (systemPart out).Sublist (systemPart msgs) ∧
    (otherPart out).Sublist (otherPart msgs) := by
  rcases trim_messages_messages_cases c msgs out h with h1 | ⟨-, h1⟩ | ⟨-, h1⟩ | ⟨-, h1⟩
  · subst h1
    exact ⟨List.Sublist.refl _, List.Sublist.refl _⟩
  · subst h1
    exact trim_sliding_window_parts c msgs
  · subst h1
    exact trim_token_aware_parts c msgs
  · subst h1
    exact trim_hybrid_parts c msgs

/-- C3 witness: class-wise order preservation at the concrete counterexample
input. -/
theorem C3_classwise_order_preserved_witness :
    (systemPart (trim_sliding_window c3c msgs3)).Sublist (systemPart msgs3) ∧
    (otherPart (trim_sliding_window c3c msgs3)).Sublist (otherPart msgs3) :=
  C3_classwise_order_preserved c3c msgs3 (trim_sliding_window c3c msgs3) (by decide)

/-- C4 counterexample: a concrete over-budget history on which the code's
token-aware result differs from the claim's description (the code rejects a
middle message the claim's budget admits, because the running total starts at
the system-token count). -/
theorem C4_token_aware_counterexample :
    c4c.max_tokens < count_tokens msgs4 ∧
    trim_messages c4c msgs4 none = .messages (trim_token_aware c4c msgs4) ∧
    trim_token_aware c4c msgs4 ≠ trimTokenAwareClaim c4c msgs4 := by decide

/-- C4 (amended): under the token-aware strategy with `keep_system_message`,
the over-budget result is `middle-suffix ++ system messages ++ recent
messages` (the re-admitted block sits in front of the system messages), where
the re-admitted block is the suffix `drop j` of the middle messages such that
every longer suffix fails — and the budget test double-counts the system
tokens: suffix `s` fits when `system_tokens + tokens(s) ≤ max_tokens -
system_tokens - recent_tokens`. -/
theorem C4_token_aware_amended (c : MemoryCompactor) (msgs : List Message)
    (hstrat : c.strategy = CompactionStrategy.token_aware)
    (hkeep : c.keep_system_message = true)
    (hover : c.max_tokens < count_tokens msgs) :
    ∃ j, j ≤ (middlePart c msgs).length ∧
      trim_messages c msgs none = .messages
        ((middlePart c msgs).drop j ++ systemPart msgs ++ recentPart c msgs) ∧
      (∀ i < j, ¬ middleSuffixFits c msgs i) ∧
      (middleSuffixFits c msgs j ∨ j = (middlePart c msgs).length) := by
  have hred : trim_messages c msgs none = .messages (trim_token_aware c msgs) := by
    rw [trim_messages_over c msgs hover, hstrat]
  obtain ⟨j, hj, heq, h1, h2⟩ := admitLoop_reverse_spec (tokenAvailable c msgs)
    ((tokenSystemTokens c msgs : Nat) : Int) (middlePart c msgs)
  have hsys : tokenSystemTokens c msgs = count_tokens (systemPart msgs) := by
    simp [tokenSystemTokens, hkeep]
  have hfits : ∀ i, (((tokenSystemTokens c msgs : Nat) : Int) +
      (count_tokens ((middlePart c msgs).drop i) : Int) ≤ tokenAvailable c msgs) ↔
      middleSuffixFits c msgs i := by
    intro i
    unfold middleSuffixFits tokenAvailable
    rw [hsys]
  refine ⟨j, hj, ?_, ?_, ?_⟩
  · rw [hred]
    congr 1
    unfold trim_token_aware
    rw [heq, hkeep]
    simp
  · intro i hi
    rw [← hfits i]
    exact h1 i hi
  · rcases h2 with h | h
    · exact Or.inl ((hfits j).mp h)
    · exact Or.inr h

/-- C4 witness: the amended characterization at the concrete counterexample
input. -/
theorem C4_token_aware_amended_witness :
    ∃ j, j ≤ (middlePart c4c msgs4).length ∧
      trim_messages c4c msgs4 none = .messages
        ((middlePart c4c msgs4).drop j ++ systemPart msgs4 ++ recentPart c4c msgs4) ∧
      (∀ i < j, ¬ middleSuffixFits c4c msgs4 i) ∧
      (middleSuffixFits c4c msgs4 j ∨ j = (middlePart c4c msgs4).length) :=
  C4_token_aware_amended c4c msgs4 rfl rfl (by decide)

/-- C5 counterexample: with `max_messages = 5` and `keep_last_n_messages =
10`, the code keeps the last 5 non-system messages (`max_messages or
keep_last_n_messages`), not the last `max(max_messages,
keep_last_n_messages) = 10` the claim states. -/
theorem C5_sliding_counterexample :
    c5c.max_tokens < count_tokens msgs5 ∧
    trim_messages c5c msgs5 none = .messages (trim_sliding_window c5c msgs5) ∧
    trim_sliding_window c5c msgs5 ≠ trimSlidingWindowClaim c5c msgs5 := by decide

/-- C5 (amended): under the sliding-window strategy with
`keep_system_message`, an over-budget history trims to all system messages
plus exactly the last `max_messages or keep_last_n_messages` non-system
messages (the configured `max_messages` wins even when smaller than
`keep_last_n_messages`; when it is `None` or `0`, `keep_last_n_messages` is
used), unconditionally and with no token check; stated here for a nonzero
resolved count (a zero count would keep every non-system message, by Python
slice semantics). -/
theorem C5_sliding_amended (c : MemoryCompactor) (msgs : List Message)
    (hstrat : c.strategy = CompactionStrategy.sliding_window)
    (hkeep : c.keep_system_message = true)
    (hover : c.max_tokens < count_tokens msgs)
    (hM : slidingKeepCount c ≠ 0) :
    trim_messages c msgs none = .messages
      (systemPart msgs ++
        (otherPart msgs).drop ((otherPart msgs).length - slidingKeepCount c)) := by
  have hred : trim_messages c msgs none = .messages (trim_sliding_window c msgs) := by
    rw [trim_messages_over c msgs hover, hstrat]
  rw [hred]
  congr 1
  unfold trim_sliding_window sliceLast
  rw [hkeep, if_neg hM]
  simp

/-- C5 witness: the amended characterization at the concrete counterexample
input. -/
theorem C5_sliding_amended_witness :
    trim_messages c5c msgs5 none = .messages
      (systemPart msgs5 ++
        (otherPart msgs5).drop ((otherPart msgs5).length - slidingKeepCount c5c)) :=
  C5_sliding_amended c5c msgs5 rfl rfl (by decide) (by decide)

/-! ## Claim theorems: intent routing -/

/-- C6 counterexample: the intent `"code"` is a substring of the label
`"code_review"`, so the claim's either-direction matching selects the
capability path, but the code only tests `label in intent` and routes
direct. -/
theorem C6_substring_counterexample :
    shouldUseSkillClaim "code" = true ∧
    should_use_skill (IntentVal.ofString "code") = Route.direct := by decide

/-- C6 (amended): after `classify_intent` the next node is the capability
selector iff the intent is a string that contains some keyword label of the
fixed three-element set as a substring — containment is tested in that one
direction only; an empty or non-string intent always routes directly to the
reasoning node. -/
theorem C6_routing_amended (intent : IntentVal) :
    should_use_skill intent = Route.skill ↔
      ∃ s, intent = IntentVal.ofString s ∧
        skill_intents.any (fun k => pyIn k s) = true := by
  constructor
  · intro h
    cases intent with
    | nonString => exact absurd h (by decide)
    | ofString s =>
      refine ⟨s, rfl, ?_⟩
      by_cases he : s = ""
      · subst he
        exact absurd h (by decide)
      · by_cases ha : skill_intents.any (fun k => pyIn k s) = true
        · exact ha
        · have hd : should_use_skill (IntentVal.ofString s) = Route.direct := by
            simp [should_use_skill, he, ha]
          rw [hd] at h
          exact Route.noConfusion h
  · rintro ⟨s, rfl, ha⟩
    have he : s ≠ "" := by
      intro h0
      subst h0
      revert ha
      decide
    simp [should_use_skill, he, ha]

/-! ## Claim theorems: agent manager -/

/-- C1: for a fresh agent id, `register_agent` first records the
configuration in `agent_configs`, then `_build_and_compile` calls
`AgentGraphBuilder` with the keyword arguments `enable_memory_compaction` and
`memory_compactor`, which its `__init__` does not accept; the `TypeError`
propagates, leaving the configuration stored and no compiled handle for that
id. -/
theorem C1_register_fresh_raises (st : ManagerState) (agent_id : String)
    (cfg : AgentConfig) (fresh : Handle)
    (h : dictGet st.agents agent_id = none) :
    kwargsAccepted agentGraphBuilderInitParams buildAndCompileKwargs = false ∧
    (register_agent st agent_id cfg fresh).1 = RegisterOutcome.raisedTypeError ∧
    dictGet (register_agent st agent_id cfg fresh).2.agent_configs agent_id = some cfg ∧
    (register_agent st agent_id cfg fresh).2.agents = st.agents := by
  have hk : kwargsAccepted agentGraphBuilderInitParams buildAndCompileKwargs = false := by
    decide
  have hb : build_and_compile fresh = BuildOutcome.typeError := by
    simp [build_and_compile, hk]
  refine ⟨hk, ?_, ?_, ?_⟩ <;> simp [register_agent, h, hb, dictGet_dictSet_self]

/-- C1 witness: registering into an empty manager raises and leaves exactly
the configuration behind. -/
theorem C1_register_fresh_raises_witness :
    dictGet (ManagerState.mk [] []).agents "agent" = none ∧
    (register_agent ⟨[], []⟩ "agent" cfgA 0).1 = RegisterOutcome.raisedTypeError ∧
    dictGet (register_agent ⟨[], []⟩ "agent" cfgA 0).2.agent_configs "agent" = some cfgA ∧
    (register_agent ⟨[], []⟩ "agent" cfgA 0).2.agents = [] :=
  ⟨rfl, (C1_register_fresh_raises ⟨[], []⟩ "agent" cfgA 0 rfl).2.1,
   (C1_register_fresh_raises ⟨[], []⟩ "agent" cfgA 0 rfl).2.2.1,
   (C1_register_fresh_raises ⟨[], []⟩ "agent" cfgA 0 rfl).2.2.2⟩

/-- C10: evaluating the code on two successive `register_agent` calls with
the same id but different configurations: both calls raise (no handle is ever
stored, so the early-return guard never fires) and the second call's
configuration overwrites the first's — against the claim that the second
call returns the first handle and leaves the stored configuration
unchanged. -/
theorem C10_register_twice_eval :
    (register_agent ⟨[], []⟩ "agent" cfgA 0).1 = RegisterOutcome.raisedTypeError ∧
    (register_agent (register_agent ⟨[], []⟩ "agent" cfgA 0).2 "agent" cfgB 1).1 =
      RegisterOutcome.raisedTypeError ∧
    dictGet (register_agent ⟨[], []⟩ "agent" cfgA 0).2.agent_configs "agent" = some cfgA ∧
    dictGet (register_agent (register_agent ⟨[], []⟩ "agent" cfgA 0).2 "agent"
      cfgB 1).2.agent_configs "agent" = some cfgB ∧
    cfgA ≠ cfgB := by decide

/-! ## Claim theorems: capability-internal execution -/

theorem execLoopTrace_fst (env : SkillExecEnv) :
    ∀ (fuel callIdx : Nat) (messages : List SkillToolMsg),
      (execLoopTrace env fuel callIdx messages).1 = execLoop env fuel callIdx messages := by
  intro fuel
  induction fuel with
  | zero =>
    intro i m
    rfl
  | succ f ih =>
    intro i m
    cases h : (env.llm i (promptOf env)).tool_calls with
    | none => simp [execLoopTrace, execLoop, h]
    | some l =>
      cases l with
      | nil => simp [execLoopTrace, execLoop, h]
      | cons tc tcs => simp [execLoopTrace, execLoop, h, ih]

theorem execLoopTrace_prompts (env : SkillExecEnv) :
    ∀ (fuel callIdx : Nat) (messages : List SkillToolMsg) (p : Prompt),
      p ∈ (execLoopTrace env fuel callIdx messages).2 → p = promptOf env := by
  intro fuel
  induction fuel with
  | zero =>
    intro i m p hp
    simp [execLoopTrace] at hp
  | succ f ih =>
    intro i m p hp
    cases h : (env.llm i (promptOf env)).tool_calls with
    | none =>
      simp [execLoopTrace, h] at hp
      exact hp
    | some l =>
      cases l with
      | nil =>
        simp [execLoopTrace, h] at hp
        exact hp
      | cons tc tcs =>
        simp [execLoopTrace, h] at hp
        rcases hp with hp | hp
        · exact hp
        · exact ih _ _ p hp

theorem execLoopTrace_length (env : SkillExecEnv) :
    ∀ (fuel callIdx : Nat) (messages : List SkillToolMsg),
      (execLoopTrace env fuel callIdx messages).2.length ≤ fuel := by
  intro fuel
  induction fuel with
  | zero =>
    intro i m
    exact Nat.le_refl _
  | succ f ih =>
    intro i m
    cases h : (env.llm i (promptOf env)).tool_calls with
    | none => simp [execLoopTrace, h]
    | some l =>
      cases l with
      | nil => simp [execLoopTrace, h]
      | cons tc tcs =>
        simp only [execLoopTrace, h, List.length_cons]
        exact Nat.succ_le_succ (ih _ _)

theorem execLoop_messages_irrelevant (env : SkillExecEnv) :
    ∀ (fuel callIdx : Nat) (m1 m2 : List SkillToolMsg),
      execLoop env fuel callIdx m1 = execLoop env fuel callIdx m2 := by
  intro fuel
  induction fuel with
  | zero =>
    intro i m1 m2
    rfl
  | succ f ih =>
    intro i m1 m2
    cases h : (env.llm i (promptOf env)).tool_calls with
    | none => simp [execLoop, h]
    | some l =>
      cases l with
      | nil => simp [execLoop, h]
      | cons tc tcs =>
        simp only [execLoop, h]
        exact ih _ _ _

theorem execLoop_cap (env : SkillExecEnv) :
    ∀ (fuel callIdx : Nat) (messages : List SkillToolMsg),
      (∀ j, callIdx ≤ j → j < callIdx + fuel →
        ∃ tc tcs, (env.llm j (promptOf env)).tool_calls = some (tc :: tcs)) →
      execLoop env fuel callIdx messages = "Skill execution completed" := by
  intro fuel
  induction fuel with
  | zero =>
    intro i m _
    rfl
  | succ f ih =>
    intro i m hall
    obtain ⟨tc, tcs, htc⟩ := hall i (Nat.le_refl i) (by omega)
    simp only [execLoop, htc]
    exact ih (i + 1) (m ++ runToolCalls env.tools (tc :: tcs))
      (fun j h1 h2 => hall j (by omega) (by omega))

/-- C2: inside capability-internal execution, every `chain.ainvoke` call of
the loop receives the identical prompt built from the skill content and the
original user input (the recorded prompt trace is constant), and the local
`messages` list of collected tool results never influences execution (the
loop's result is invariant in it). -/
theorem C2_fixed_prompt_unused_messages (env : SkillExecEnv) :
    (∀ p ∈ (execLoopTrace env 10 0 []).2, p = promptOf env) ∧
    (execLoopTrace env 10 0 []).1 = execute_skill env ∧
    (∀ fuel callIdx m1 m2,
      execLoop env fuel callIdx m1 = execLoop env fuel callIdx m2) :=
  ⟨fun p hp => execLoopTrace_prompts env 10 0 [] p hp,
   execLoopTrace_fst env 10 0 [],
   fun fuel callIdx m1 m2 => execLoop_messages_irrelevant env fuel callIdx m1 m2⟩

/-- C2 witness: at a concrete environment, the single recorded prompt is the
fixed one and the result ignores a pre-seeded tool-result list. -/
theorem C2_fixed_prompt_unused_messages_witness :
    promptOf envC2 = promptOf envC2 ∧
    execLoop envC2 10 0 [] = execLoop envC2 10 0 [⟨"tool", "r", "1"⟩] :=
  ⟨(C2_fixed_prompt_unused_messages envC2).1 (promptOf envC2) (by decide),
   (C2_fixed_prompt_unused_messages envC2).2.2 10 0 [] [⟨"tool", "r", "1"⟩]⟩

/-- C9: capability-internal execution makes at most 10 model calls per
invocation, and when every response up to the cap still carries pending tool
calls it terminates by returning the generic "Skill execution completed"
message rather than raising. -/
theorem C9_loop_cap (env : SkillExecEnv) :
    (execLoopTrace env 10 0 []).2.length ≤ 10 ∧
    ((∀ j < 10, ∃ tc tcs, (env.llm j (promptOf env)).tool_calls = some (tc :: tcs)) →
      execute_skill env = "Skill execution completed") :=
  ⟨execLoopTrace_length env 10 0 [],
   fun hall => execLoop_cap env 10 0 [] (fun j _ h2 => hall j (by omega))⟩

/-- C9 witness: an environment whose model always asks for a tool call runs
out of iterations and yields the generic completion message. -/
theorem C9_loop_cap_witness :
    (execLoopTrace envC9 10 0 []).2.length ≤ 10 ∧
    execute_skill envC9 = "Skill execution completed" :=
  ⟨(C9_loop_cap envC9).1,
   (C9_loop_cap envC9).2 (fun _ _ => ⟨⟨"1", "t", "a"⟩, [], rfl⟩)⟩

end AgentLoop
